import Mathlib

/-!
Verification development for the WorldCup-Prediction backend.

Shallow embedding of the core services:
  * `ScoringService.scoreUser` and its helpers (scoring.service.ts,
    prediction.helper.ts, scoring.types.ts),
  * `AuthService.validateSession` / `refreshSession` / `deleteSession`
    (auth.service.ts, token.service.ts, session-cache.service.ts),
  * `OtpService.sendOtp` / `generateOtpCode` (otp.service.ts),
  * `AuthGuard.canActivate` IP-mismatch check (auth.guard.ts),
  * `PredictionProcessor.processPredictionJob` (prediction.processor.ts),
  * `RabbitMQService.handleMessageRetry` (rabbitmq.service.ts).

JavaScript objects / `Map`s of group label to team-id array are embedded as
association lists `List (String × List String)` in entry order; a JS `Set`
built from an array is embedded as the first-occurrence deduplication of the
underlying list (`jsSet`).  bcrypt hashing/verification is kept abstract as a
boolean parameter `verify : String → String → Bool`.  Redis is a list of
key/value(/expiry) entries; TypeORM repositories are lists of rows.
-/

namespace WorldCup

/-! ## Scoring kernel (scoring.service.ts) -/

/-- A prediction or ground-truth mapping: group label → team-id sequence,
in entry order (JS `Object.entries` / `Map.entries`). -/
abbrev Groups := List (String × List String)

/-- JS `correctGroups.get(group) || []` and `userGroups[group]`:
value of the first entry with the given label, defaulting to `[]`. -/
def lookupGroup (gs : Groups) (g : String) : List String :=
  (gs.lookup g).getD []

/-- JS `new Set(xs)`: the elements of `xs` with later duplicates removed
(first occurrence kept, in iteration order). -/
def jsSet : List String → List String
  | [] => []
  | a :: l => a :: jsSet (l.filter (fun x => x ≠ a))
termination_by l => l.length
decreasing_by
  simp only [List.length_cons]
  exact Nat.lt_succ_of_le (l.length_filter_le _)

/-- `areSetsEqual` (prediction.helper.ts): same size and every element of the
first set is in the second.  Arguments are deduplicated lists (JS `Set`s). -/
def areSetsEqual (s1 s2 : List String) : Bool :=
  s1.length == s2.length && s1.all (fun x => s2.contains x)

/-- `findGroupWithTeam` (prediction.helper.ts): label of the first entry whose
team list contains `teamId`. -/
def findGroupWithTeam (gs : Groups) (teamId : String) : Option String :=
  (gs.find? (fun p => p.2.contains teamId)).map Prod.fst

/-- `ScoringRule` (scoring.types.ts). -/
inductive ScoringRule
  | ALL_CORRECT
  | TWO_MISPLACED
  | THREE_MISPLACED
  | IRAN_GROUP_CORRECT
  | PERFECT_GROUP
  | THREE_CORRECT
  | NO_MATCH
deriving DecidableEq, Repr

/-- `ScoreResult` (scoring.types.ts), restricted to the score and the selected
rule (the `details` breakdown carries no further decision content). -/
structure ScoreResult where
  score : Nat
  rule : ScoringRule
deriving DecidableEq, Repr

/-- The misplaced-team list of `scoreUser`: for each user entry, the members
of the user team set that are not in the corresponding truth team set,
concatenated over entries. -/
def misplacedTeams (user truth : Groups) : List String :=
  (user.map (fun p =>
    (jsSet p.2).filter (fun team => !((lookupGroup truth p.1).contains team)))).flatten

/-- `checkIranGroupCorrect` (scoring.service.ts). -/
def checkIranGroupCorrect (user truth : Groups) (iranTeamId : String) :
    Option ScoreResult :=
  match findGroupWithTeam user iranTeamId with
  | none => none
  | some ug =>
    if findGroupWithTeam truth iranTeamId ≠ some ug then none
    else if areSetsEqual (jsSet (lookupGroup user ug)) (jsSet (lookupGroup truth ug)) then
      some ⟨50, .IRAN_GROUP_CORRECT⟩
    else none

/-- `checkPerfectGroup` (scoring.service.ts): first user entry equal as a set
to the truth entry of the same label. -/
def checkPerfectGroup (user truth : Groups) : Option ScoreResult :=
  (user.find? (fun p =>
    areSetsEqual (jsSet p.2) (jsSet (lookupGroup truth p.1)))).map
    (fun _ => ⟨40, .PERFECT_GROUP⟩)

/-- `checkThreeCorrect` (scoring.service.ts): first user entry whose
intersection with the truth entry of the same label has size exactly 3. -/
def checkThreeCorrect (user truth : Groups) : Option ScoreResult :=
  (user.find? (fun p =>
    ((jsSet p.2).filter (fun team => (lookupGroup truth p.1).contains team)).length == 3)).map
    (fun _ => ⟨20, .THREE_CORRECT⟩)

/-- The Iran-rule stage of `scoreUser`: run `checkIranGroupCorrect` only when
`iranTeamId` is present and truthy (`if (iranTeamId)`). -/
def iranStage (iranTeamId : Option String) (user truth : Groups) : Option ScoreResult :=
  match iranTeamId with
  | some iid => if iid ≠ "" then checkIranGroupCorrect user truth iid else none
  | none => none

/-- `ScoringService.scoreUser` (scoring.service.ts): priority-ordered rule
evaluation returning the first match.  `iranTeamId` is the id returned by
`groupDataService.getTeamByName('Iran')`, absent when no such team exists. -/
def scoreUser (iranTeamId : Option String) (user truth : Groups) : ScoreResult :=
  let misplacedCount := (misplacedTeams user truth).length
  if misplacedCount = 0 then ⟨100, .ALL_CORRECT⟩
  else if misplacedCount = 2 then ⟨80, .TWO_MISPLACED⟩
  else if misplacedCount = 3 then ⟨60, .THREE_MISPLACED⟩
  else
    match iranStage iranTeamId user truth with
    | some r => r
    | none =>
      match checkPerfectGroup user truth with
      | some r => r
      | none =>
        match checkThreeCorrect user truth with
        | some r => r
        | none => ⟨0, .NO_MATCH⟩

/-! ### Specification-side rule conditions (spec §4.6)

The spec states each rule condition with set operations; the conditions below
follow the spec's rule table.  `specMisplaced` is the spec's
`misplaced = Σ_g |user[g] \ truth[g]|`. -/

/-- Spec: `misplaced` = sum over the user's group labels of the cardinality of
the set difference `user[g] \ truth[g]`. -/
def specMisplaced (user truth : Groups) : Nat :=
  (user.map (fun p => (p.2.toFinset \ (lookupGroup truth p.1).toFinset).card)).sum

/-- Spec rule 4 core condition, for a present designated entity: it lies in a
user group, the label of that group agrees with the truth, and the two groups
of that label are equal as sets. -/
def iranCore (iid : String) (user truth : Groups) : Prop :=
  ∃ g, findGroupWithTeam user iid = some g ∧ findGroupWithTeam truth iid = some g ∧
    (lookupGroup user g).toFinset = (lookupGroup truth g).toFinset

/-- Spec rule 4 condition: a designated entity exists (a nonempty id) and its
group is fully correct. -/
def specIranCond (iranTeamId : Option String) (user truth : Groups) : Prop :=
  ∃ iid, iranTeamId = some iid ∧ iid ≠ "" ∧ iranCore iid user truth

/-- Spec rule 5 condition: some group label has `user[g] == truth[g]` as sets. -/
def specPerfectCond (user truth : Groups) : Prop :=
  ∃ p ∈ user, p.2.toFinset = (lookupGroup truth p.1).toFinset

/-- Spec rule 6 condition: some group label has `|user[g] ∩ truth[g]| = 3`. -/
def specThreeCond (user truth : Groups) : Prop :=
  ∃ p ∈ user, (p.2.toFinset ∩ (lookupGroup truth p.1).toFinset).card = 3

/-- The condition of each rule, per the spec's rule table. -/
def specRuleCond (iranTeamId : Option String) (user truth : Groups) :
    ScoringRule → Prop
  | .ALL_CORRECT => specMisplaced user truth = 0
  | .TWO_MISPLACED => specMisplaced user truth = 2
  | .THREE_MISPLACED => specMisplaced user truth = 3
  | .IRAN_GROUP_CORRECT => specIranCond iranTeamId user truth
  | .PERFECT_GROUP => specPerfectCond user truth
  | .THREE_CORRECT => specThreeCond user truth
  | .NO_MATCH => True

/-- The score attached to each rule, per the spec's rule table. -/
def ruleScore : ScoringRule → Nat
  | .ALL_CORRECT => 100
  | .TWO_MISPLACED => 80
  | .THREE_MISPLACED => 60
  | .IRAN_GROUP_CORRECT => 50
  | .PERFECT_GROUP => 40
  | .THREE_CORRECT => 20
  | .NO_MATCH => 0

/-- Position of each rule in the spec's priority order. -/
def ruleIndex : ScoringRule → Nat
  | .ALL_CORRECT => 0
  | .TWO_MISPLACED => 1
  | .THREE_MISPLACED => 2
  | .IRAN_GROUP_CORRECT => 3
  | .PERFECT_GROUP => 4
  | .THREE_CORRECT => 5
  | .NO_MATCH => 6

/-- `res` is the outcome the spec prescribes: its rule's condition holds, its
score is the rule's score, and no rule earlier in the priority order has a
satisfied condition. -/
def IsFirstSatisfiedRule (iranTeamId : Option String) (user truth : Groups)
    (res : ScoreResult) : Prop :=
  specRuleCond iranTeamId user truth res.rule ∧
  res.score = ruleScore res.rule ∧
  ∀ r : ScoringRule, ruleIndex r < ruleIndex res.rule →
    ¬ specRuleCond iranTeamId user truth r

/-! ### Bridge lemmas: code-level set operations vs spec-level finsets -/

theorem mem_jsSet {a : String} {l : List String} : a ∈ jsSet l ↔ a ∈ l := by
  induction l using jsSet.induct with
  | case1 => simp [jsSet]
  | case2 b l ih =>
    simp only [jsSet, List.mem_cons, ih, List.mem_filter, decide_eq_true_eq]
    constructor
    · rintro (rfl | ⟨h, _⟩)
      · exact Or.inl rfl
      · exact Or.inr h
    · rintro (rfl | h)
      · exact Or.inl rfl
      · by_cases hab : a = b
        · exact Or.inl hab
        · exact Or.inr ⟨h, hab⟩

theorem jsSet_nodup (l : List String) : (jsSet l).Nodup := by
  induction l using jsSet.induct with
  | case1 => simp [jsSet]
  | case2 b l ih =>
    simp only [jsSet, List.nodup_cons]
    refine ⟨fun hmem => ?_, ih⟩
    rw [mem_jsSet, List.mem_filter] at hmem
    simpa using hmem.2

theorem jsSet_toFinset (l : List String) : (jsSet l).toFinset = l.toFinset := by
  ext a
  simp [List.mem_toFinset, mem_jsSet]

theorem length_jsSet (l : List String) : (jsSet l).length = l.toFinset.card := by
  rw [← jsSet_toFinset, List.toFinset_card_of_nodup (jsSet_nodup l)]

theorem contains_iff_mem {a : String} {l : List String} :
    l.contains a = true ↔ a ∈ l := by
  simp [List.contains_iff_exists_mem_beq, beq_iff_eq]

theorem length_filter_jsSet (p : String → Bool) (l : List String) :
    ((jsSet l).filter p).length = (l.toFinset.filter (fun x => p x = true)).card := by
  have hnd : ((jsSet l).filter p).Nodup := (jsSet_nodup l).filter p
  rw [← List.toFinset_card_of_nodup hnd, List.toFinset_filter, jsSet_toFinset]

theorem misplaced_eq_spec (user truth : Groups) :
    (misplacedTeams user truth).length = specMisplaced user truth := by
  unfold misplacedTeams specMisplaced
  rw [List.length_flatten, List.map_map]
  congr 1
  apply List.map_congr_left
  intro p _
  simp only [Function.comp_apply]
  rw [length_filter_jsSet]
  congr 1
  rw [Finset.sdiff_eq_filter]
  apply Finset.filter_congr
  intro x _
  simp [contains_iff_mem, List.mem_toFinset]

theorem areSetsEqual_iff {a b : List String} :
    areSetsEqual (jsSet a) (jsSet b) = true ↔ a.toFinset = b.toFinset := by
  unfold areSetsEqual
  rw [Bool.and_eq_true, beq_iff_eq, length_jsSet, length_jsSet, List.all_eq_true]
  constructor
  · rintro ⟨hcard, hsub⟩
    apply Finset.eq_of_subset_of_card_le
    · intro x hx
      rw [List.mem_toFinset] at hx ⊢
      have := hsub x (by rwa [mem_jsSet])
      rwa [contains_iff_mem, mem_jsSet] at this
    · omega
  · intro h
    refine ⟨by rw [h], fun x hx => ?_⟩
    rw [contains_iff_mem, mem_jsSet, ← List.mem_toFinset, ← h, List.mem_toFinset]
    rwa [mem_jsSet] at hx

theorem inter_card_bridge (a cs : List String) :
    ((jsSet a).filter (fun team => cs.contains team)).length =
      (a.toFinset ∩ cs.toFinset).card := by
  rw [length_filter_jsSet, ← Finset.filter_mem_eq_inter]
  congr 1
  apply Finset.filter_congr
  intro x _
  simp [contains_iff_mem, List.mem_toFinset]

theorem checkPerfectGroup_eq_none_iff (u t : Groups) :
    checkPerfectGroup u t = none ↔ ¬ specPerfectCond u t := by
  unfold checkPerfectGroup specPerfectCond
  rw [Option.map_eq_none', List.find?_eq_none]
  constructor
  · rintro h ⟨p, hp, heq⟩
    exact h p hp (areSetsEqual_iff.2 heq)
  · intro h p hp hpred
    exact h ⟨p, hp, areSetsEqual_iff.1 hpred⟩

theorem checkPerfectGroup_eq_some {u t : Groups} {r : ScoreResult}
    (h : checkPerfectGroup u t = some r) :
    r = ⟨40, .PERFECT_GROUP⟩ ∧ specPerfectCond u t := by
  unfold checkPerfectGroup at h
  rcases Option.map_eq_some'.1 h with ⟨p, hfind, hr⟩
  have hpred : areSetsEqual (jsSet p.2) (jsSet (lookupGroup t p.1)) = true := by
    simpa using List.find?_some hfind
  exact ⟨hr.symm,
    ⟨p, List.mem_of_find?_eq_some hfind, areSetsEqual_iff.1 hpred⟩⟩

theorem checkThreeCorrect_eq_none_iff (u t : Groups) :
    checkThreeCorrect u t = none ↔ ¬ specThreeCond u t := by
  unfold checkThreeCorrect specThreeCond
  rw [Option.map_eq_none', List.find?_eq_none]
  constructor
  · rintro h ⟨p, hp, heq⟩
    refine h p hp ?_
    rw [beq_iff_eq, inter_card_bridge]
    exact heq
  · intro h p hp hpred
    rw [beq_iff_eq, inter_card_bridge] at hpred
    exact h ⟨p, hp, hpred⟩

theorem checkThreeCorrect_eq_some {u t : Groups} {r : ScoreResult}
    (h : checkThreeCorrect u t = some r) :
    r = ⟨20, .THREE_CORRECT⟩ ∧ specThreeCond u t := by
  unfold checkThreeCorrect at h
  rcases Option.map_eq_some'.1 h with ⟨p, hfind, hr⟩
  have hpred :
      (((jsSet p.2).filter (fun team => (lookupGroup t p.1).contains team)).length == 3)
        = true := by
    simpa using List.find?_some hfind
  rw [beq_iff_eq, inter_card_bridge] at hpred
  exact ⟨hr.symm, ⟨p, List.mem_of_find?_eq_some hfind, hpred⟩⟩

theorem checkIran_eq_none_iff (u t : Groups) (iid : String) :
    checkIranGroupCorrect u t iid = none ↔ ¬ iranCore iid u t := by
  cases hfu : findGroupWithTeam u iid with
  | none =>
    have hlhs : checkIranGroupCorrect u t iid = none := by
      simp [checkIranGroupCorrect, hfu]
    rw [hlhs]
    simp only [true_iff]
    rintro ⟨g, hg, _⟩
    rw [hfu] at hg
    cases hg
  | some ug =>
    by_cases hft : findGroupWithTeam t iid = some ug
    · by_cases hset :
          areSetsEqual (jsSet (lookupGroup u ug)) (jsSet (lookupGroup t ug)) = true
      · have hlhs : checkIranGroupCorrect u t iid =
            some ⟨50, .IRAN_GROUP_CORRECT⟩ := by
          simp [checkIranGroupCorrect, hfu, hft, hset]
        rw [hlhs]
        constructor
        · intro hcon
          cases hcon
        · intro hcon
          exact absurd ⟨ug, hfu, hft, areSetsEqual_iff.1 hset⟩ hcon
      · have hlhs : checkIranGroupCorrect u t iid = none := by
          simp [checkIranGroupCorrect, hfu, hft, hset]
        rw [hlhs]
        simp only [true_iff]
        rintro ⟨g, hg, hgt, heq⟩
        rw [hfu] at hg
        obtain rfl : ug = g := by injection hg
        exact hset (areSetsEqual_iff.2 heq)
    · have hlhs : checkIranGroupCorrect u t iid = none := by
        simp [checkIranGroupCorrect, hfu, hft]
      rw [hlhs]
      simp only [true_iff]
      rintro ⟨g, hg, hgt, _⟩
      rw [hfu] at hg
      obtain rfl : ug = g := by injection hg
      exact hft hgt

theorem checkIran_eq_some {u t : Groups} {iid : String} {r : ScoreResult}
    (h : checkIranGroupCorrect u t iid = some r) :
    r = ⟨50, .IRAN_GROUP_CORRECT⟩ ∧ iranCore iid u t := by
  have hne : checkIranGroupCorrect u t iid ≠ none := by
    rw [h]
    exact Option.some_ne_none r
  have hcore : iranCore iid u t := by
    by_contra hcon
    exact hne ((checkIran_eq_none_iff u t iid).2 hcon)
  obtain ⟨g, hfu, hft, heq⟩ := hcore
  have hset : areSetsEqual (jsSet (lookupGroup u g)) (jsSet (lookupGroup t g)) = true :=
    areSetsEqual_iff.2 heq
  have hval : checkIranGroupCorrect u t iid = some ⟨50, .IRAN_GROUP_CORRECT⟩ := by
    simp [checkIranGroupCorrect, hfu, hft, hset]
  rw [hval] at h
  exact ⟨(Option.some_inj.1 h).symm, ⟨g, hfu, hft, heq⟩⟩

theorem iranStage_eq_none_iff (o : Option String) (u t : Groups) :
    iranStage o u t = none ↔ ¬ specIranCond o u t := by
  cases o with
  | none => simp [iranStage, specIranCond]
  | some iid =>
    by_cases hiid : iid = ""
    · subst hiid
      simp [iranStage, specIranCond]
    · have hred : iranStage (some iid) u t = checkIranGroupCorrect u t iid := by
        simp [iranStage, hiid]
      rw [hred, checkIran_eq_none_iff]
      unfold specIranCond
      constructor
      · rintro h ⟨x, hx, _, hcore⟩
        obtain rfl : iid = x := by injection hx
        exact h hcore
      · intro h hcore
        exact h ⟨iid, rfl, hiid, hcore⟩

theorem iranStage_eq_some {o : Option String} {u t : Groups} {r : ScoreResult}
    (h : iranStage o u t = some r) :
    r = ⟨50, .IRAN_GROUP_CORRECT⟩ ∧ specIranCond o u t := by
  cases o with
  | none => cases h
  | some iid =>
    by_cases hiid : iid = ""
    · subst hiid
      simp [iranStage] at h
    · have hred : iranStage (some iid) u t = checkIranGroupCorrect u t iid := by
        simp [iranStage, hiid]
      rw [hred] at h
      obtain ⟨hr, hcore⟩ := checkIran_eq_some h
      exact ⟨hr, iid, rfl, hiid, hcore⟩

theorem no_earlier_rule {o : Option String} {u t : Groups} {k : Nat}
    (hms : (misplacedTeams u t).length = specMisplaced u t)
    (hk : k ≤ 6)
    (h0 : 1 ≤ k → ¬ (misplacedTeams u t).length = 0)
    (h2 : 2 ≤ k → ¬ (misplacedTeams u t).length = 2)
    (h3 : 3 ≤ k → ¬ (misplacedTeams u t).length = 3)
    (hir : 4 ≤ k → ¬ specIranCond o u t)
    (hpg : 5 ≤ k → ¬ specPerfectCond u t)
    (htc : 6 ≤ k → ¬ specThreeCond u t) :
    ∀ r : ScoringRule, ruleIndex r < k → ¬ specRuleCond o u t r := by
  intro r hr
  cases r with
  | ALL_CORRECT =>
    simp only [specRuleCond, ← hms]
    simp only [ruleIndex] at hr
    exact h0 (by omega)
  | TWO_MISPLACED =>
    simp only [specRuleCond, ← hms]
    simp only [ruleIndex] at hr
    exact h2 (by omega)
  | THREE_MISPLACED =>
    simp only [specRuleCond, ← hms]
    simp only [ruleIndex] at hr
    exact h3 (by omega)
  | IRAN_GROUP_CORRECT =>
    simp only [specRuleCond]
    simp only [ruleIndex] at hr
    exact hir (by omega)
  | PERFECT_GROUP =>
    simp only [specRuleCond]
    simp only [ruleIndex] at hr
    exact hpg (by omega)
  | THREE_CORRECT =>
    simp only [specRuleCond]
    simp only [ruleIndex] at hr
    exact htc (by omega)
  | NO_MATCH =>
    simp only [ruleIndex] at hr
    omega

theorem scoreUser_isFirstSatisfied (o : Option String) (u t : Groups) :
    IsFirstSatisfiedRule o u t (scoreUser o u t) := by
  have hms := misplaced_eq_spec u t
  by_cases h0 : (misplacedTeams u t).length = 0
  · have hv : scoreUser o u t = ⟨100, .ALL_CORRECT⟩ := by
      simp [scoreUser, h0]
    rw [hv]
    refine ⟨?_, rfl, ?_⟩
    · simp only [specRuleCond, ← hms]
      exact h0
    · exact no_earlier_rule hms (by decide) (fun h => absurd h (by decide))
        (fun h => absurd h (by decide)) (fun h => absurd h (by decide))
        (fun h => absurd h (by decide)) (fun h => absurd h (by decide))
        (fun h => absurd h (by decide))
  · by_cases h2 : (misplacedTeams u t).length = 2
    · have hv : scoreUser o u t = ⟨80, .TWO_MISPLACED⟩ := by
        simp [scoreUser, h0, h2]
      rw [hv]
      refine ⟨?_, rfl, ?_⟩
      · simp only [specRuleCond, ← hms]
        exact h2
      · exact no_earlier_rule hms (by decide) (fun _ => h0)
          (fun h => absurd h (by decide)) (fun h => absurd h (by decide))
          (fun h => absurd h (by decide)) (fun h => absurd h (by decide))
          (fun h => absurd h (by decide))
    · by_cases h3 : (misplacedTeams u t).length = 3
      · have hv : scoreUser o u t = ⟨60, .THREE_MISPLACED⟩ := by
          simp [scoreUser, h0, h2, h3]
        rw [hv]
        refine ⟨?_, rfl, ?_⟩
        · simp only [specRuleCond, ← hms]
          exact h3
        · exact no_earlier_rule hms (by decide) (fun _ => h0) (fun _ => h2)
            (fun h => absurd h (by decide)) (fun h => absurd h (by decide))
            (fun h => absurd h (by decide)) (fun h => absurd h (by decide))
      · cases hstage : iranStage o u t with
        | some r0 =>
          obtain ⟨hr50, hcond⟩ := iranStage_eq_some hstage
          have hv : scoreUser o u t = r0 := by
            simp [scoreUser, h0, h2, h3, hstage]
          rw [hv, hr50]
          refine ⟨hcond, rfl, ?_⟩
          exact no_earlier_rule hms (by decide) (fun _ => h0) (fun _ => h2)
            (fun _ => h3) (fun h => absurd h (by decide))
            (fun h => absurd h (by decide)) (fun h => absurd h (by decide))
        | none =>
          have hnocond : ¬ specIranCond o u t := (iranStage_eq_none_iff o u t).1 hstage
          cases hpg : checkPerfectGroup u t with
          | some r0 =>
            obtain ⟨hr40, hcond⟩ := checkPerfectGroup_eq_some hpg
            have hv : scoreUser o u t = r0 := by
              simp [scoreUser, h0, h2, h3, hstage, hpg]
            rw [hv, hr40]
            refine ⟨hcond, rfl, ?_⟩
            exact no_earlier_rule hms (by decide) (fun _ => h0) (fun _ => h2)
              (fun _ => h3) (fun _ => hnocond)
              (fun h => absurd h (by decide)) (fun h => absurd h (by decide))
          | none =>
            have hnopg : ¬ specPerfectCond u t := (checkPerfectGroup_eq_none_iff u t).1 hpg
            cases htc : checkThreeCorrect u t with
            | some r0 =>
              obtain ⟨hr20, hcond⟩ := checkThreeCorrect_eq_some htc
              have hv : scoreUser o u t = r0 := by
                simp [scoreUser, h0, h2, h3, hstage, hpg, htc]
              rw [hv, hr20]
              refine ⟨hcond, rfl, ?_⟩
              exact no_earlier_rule hms (by decide) (fun _ => h0) (fun _ => h2)
                (fun _ => h3) (fun _ => hnocond) (fun _ => hnopg)
                (fun h => absurd h (by decide))
            | none =>
              have hnotc : ¬ specThreeCond u t := (checkThreeCorrect_eq_none_iff u t).1 htc
              have hv : scoreUser o u t = ⟨0, .NO_MATCH⟩ := by
                simp [scoreUser, h0, h2, h3, hstage, hpg, htc]
              rw [hv]
              refine ⟨trivial, rfl, ?_⟩
              exact no_earlier_rule hms (by decide) (fun _ => h0) (fun _ => h2)
                (fun _ => h3) (fun _ => hnocond) (fun _ => hnopg) (fun _ => hnotc)

theorem isFirstSatisfiedRule_unique {o : Option String} {u t : Groups}
    {r1 r2 : ScoreResult} (h1 : IsFirstSatisfiedRule o u t r1)
    (h2 : IsFirstSatisfiedRule o u t r2) : r1 = r2 := by
  obtain ⟨s1, c1⟩ := r1
  obtain ⟨s2, c2⟩ := r2
  obtain ⟨hc1, hs1, hmin1⟩ := h1
  obtain ⟨hc2, hs2, hmin2⟩ := h2
  simp only at hc1 hc2 hs1 hs2 hmin1 hmin2
  have hrule : c1 = c2 := by
    rcases Nat.lt_trichotomy (ruleIndex c1) (ruleIndex c2) with hlt | heq | hgt
    · exact absurd hc1 (hmin2 _ hlt)
    · revert heq
      cases c1 <;> cases c2 <;> intro heq <;> first | rfl | simp [ruleIndex] at heq
    · exact absurd hc2 (hmin1 _ hgt)
  subst hrule
  rw [hs1, hs2]

/-! ### Permutation invariance infrastructure -/

/-- Two group mappings with identical labels in identical entry order, whose
team sequences are permutations of one another. -/
def GroupsPerm (g1 g2 : Groups) : Prop :=
  List.Forall₂ (fun p q => p.1 = q.1 ∧ p.2.Perm q.2) g1 g2

theorem lookupGroup_perm {t1 t2 : Groups} (h : GroupsPerm t1 t2) (g : String) :
    (lookupGroup t1 g).Perm (lookupGroup t2 g) := by
  induction h with
  | nil => simp [lookupGroup]
  | cons hpq hrest ih =>
    rename_i p q l1 l2
    obtain ⟨hk, hv⟩ := hpq
    obtain ⟨k1, v1⟩ := p
    obtain ⟨k2, v2⟩ := q
    simp only at hk hv
    subst hk
    unfold lookupGroup at *
    by_cases hg : g == k1
    · simp [List.lookup, hg]
      exact hv
    · simp only [List.lookup, hg]
      exact ih

theorem contains_perm {a b : List String} (h : a.Perm b) (x : String) :
    a.contains x = b.contains x := by
  rw [Bool.eq_iff_iff, contains_iff_mem, contains_iff_mem]
  exact h.mem_iff

theorem findGroupWithTeam_perm {u1 u2 : Groups} (h : GroupsPerm u1 u2) (x : String) :
    findGroupWithTeam u1 x = findGroupWithTeam u2 x := by
  induction h with
  | nil => rfl
  | cons hpq hrest ih =>
    rename_i p q l1 l2
    obtain ⟨hk, hv⟩ := hpq
    unfold findGroupWithTeam at *
    have hc : p.2.contains x = q.2.contains x := contains_perm hv x
    simp only [List.find?_cons]
    rw [hc]
    cases hq : q.2.contains x with
    | true => simp [hk]
    | false => simpa using ih

theorem specMisplaced_perm {u1 u2 t1 t2 : Groups}
    (hu : GroupsPerm u1 u2) (ht : GroupsPerm t1 t2) :
    specMisplaced u1 t1 = specMisplaced u2 t2 := by
  unfold specMisplaced
  induction hu with
  | nil => rfl
  | cons hpq hrest ih =>
    rename_i p q l1 l2
    obtain ⟨hk, hv⟩ := hpq
    simp only [List.map_cons, List.sum_cons, ih]
    congr 1
    rw [hk, List.toFinset_eq_of_perm _ _ hv, List.toFinset_eq_of_perm _ _ (lookupGroup_perm ht q.1)]

theorem specPerfectCond_perm {u1 u2 t1 t2 : Groups}
    (hu : GroupsPerm u1 u2) (ht : GroupsPerm t1 t2) :
    specPerfectCond u1 t1 ↔ specPerfectCond u2 t2 := by
  unfold specPerfectCond
  induction hu with
  | nil => simp
  | cons hpq hrest ih =>
    rename_i p q l1 l2
    obtain ⟨hk, hv⟩ := hpq
    rw [List.exists_mem_cons_iff, List.exists_mem_cons_iff, ih]
    have hhead : (p.2.toFinset = (lookupGroup t1 p.1).toFinset) ↔
        (q.2.toFinset = (lookupGroup t2 q.1).toFinset) := by
      rw [hk, List.toFinset_eq_of_perm _ _ hv, List.toFinset_eq_of_perm _ _ (lookupGroup_perm ht q.1)]
    rw [hhead]

theorem specThreeCond_perm {u1 u2 t1 t2 : Groups}
    (hu : GroupsPerm u1 u2) (ht : GroupsPerm t1 t2) :
    specThreeCond u1 t1 ↔ specThreeCond u2 t2 := by
  unfold specThreeCond
  induction hu with
  | nil => simp
  | cons hpq hrest ih =>
    rename_i p q l1 l2
    obtain ⟨hk, hv⟩ := hpq
    rw [List.exists_mem_cons_iff, List.exists_mem_cons_iff, ih]
    have hhead : ((p.2.toFinset ∩ (lookupGroup t1 p.1).toFinset).card = 3) ↔
        ((q.2.toFinset ∩ (lookupGroup t2 q.1).toFinset).card = 3) := by
      rw [hk, List.toFinset_eq_of_perm _ _ hv, List.toFinset_eq_of_perm _ _ (lookupGroup_perm ht q.1)]
    rw [hhead]

theorem iranCore_perm {u1 u2 t1 t2 : Groups}
    (hu : GroupsPerm u1 u2) (ht : GroupsPerm t1 t2) (iid : String) :
    iranCore iid u1 t1 ↔ iranCore iid u2 t2 := by
  unfold iranCore
  rw [findGroupWithTeam_perm hu, findGroupWithTeam_perm ht]
  exact exists_congr (fun g => by
    rw [List.toFinset_eq_of_perm _ _ (lookupGroup_perm hu g), List.toFinset_eq_of_perm _ _ (lookupGroup_perm ht g)])

theorem specIranCond_perm {u1 u2 t1 t2 : Groups} (o : Option String)
    (hu : GroupsPerm u1 u2) (ht : GroupsPerm t1 t2) :
    specIranCond o u1 t1 ↔ specIranCond o u2 t2 := by
  unfold specIranCond
  exact exists_congr (fun iid => by rw [iranCore_perm hu ht iid])

theorem specRuleCond_perm {u1 u2 t1 t2 : Groups} (o : Option String)
    (hu : GroupsPerm u1 u2) (ht : GroupsPerm t1 t2) (r : ScoringRule) :
    specRuleCond o u1 t1 r ↔ specRuleCond o u2 t2 r := by
  cases r with
  | ALL_CORRECT => simp only [specRuleCond, specMisplaced_perm hu ht]
  | TWO_MISPLACED => simp only [specRuleCond, specMisplaced_perm hu ht]
  | THREE_MISPLACED => simp only [specRuleCond, specMisplaced_perm hu ht]
  | IRAN_GROUP_CORRECT => exact specIranCond_perm o hu ht
  | PERFECT_GROUP => exact specPerfectCond_perm hu ht
  | THREE_CORRECT => exact specThreeCond_perm hu ht
  | NO_MATCH => exact Iff.rfl

/-! ### Claim theorems for the scoring kernel -/

/-- C1: for every user prediction mapping and ground-truth mapping, the
scorer's result score is an element of {0, 20, 40, 50, 60, 80, 100}, and the
returned rule is the first rule in the fixed priority order (ALL_CORRECT,
TWO_MISPLACED, THREE_MISPLACED, IRAN_GROUP_CORRECT, PERFECT_GROUP,
THREE_CORRECT, NO_MATCH) whose spec-table condition holds, with that rule's
score (100, 80, 60, 50, 40, 20, 0 respectively) attached. -/
theorem scoreUser_first_match_and_range (o : Option String) (u t : Groups) :
    IsFirstSatisfiedRule o u t (scoreUser o u t) ∧
      (scoreUser o u t).score ∈ [0, 20, 40, 50, 60, 80, 100] := by
  refine ⟨scoreUser_isFirstSatisfied o u t, ?_⟩
  rw [(scoreUser_isFirstSatisfied o u t).2.1]
  cases (scoreUser o u t).rule <;> simp [ruleScore]

/-- C6: permuting the order of entity ids within any group's sequence, in the
user prediction and/or the ground truth, leaves the scorer's score and
selected rule unchanged. -/
theorem scoreUser_perm_invariant (o : Option String) {u1 u2 t1 t2 : Groups}
    (hu : GroupsPerm u1 u2) (ht : GroupsPerm t1 t2) :
    scoreUser o u1 t1 = scoreUser o u2 t2 := by
  have h1 := scoreUser_isFirstSatisfied o u1 t1
  have htrans : IsFirstSatisfiedRule o u2 t2 (scoreUser o u1 t1) := by
    obtain ⟨hc, hs, hmin⟩ := h1
    exact ⟨(specRuleCond_perm o hu ht _).1 hc, hs,
      fun r hr hcon => hmin r hr ((specRuleCond_perm o hu ht r).2 hcon)⟩
  exact isFirstSatisfiedRule_unique htrans (scoreUser_isFirstSatisfied o u2 t2)

/-- Witness for `scoreUser_perm_invariant` at a concrete input. -/
theorem scoreUser_perm_invariant_witness :
    scoreUser (some "9") [("A", ["1", "2", "3", "4"])] [("A", ["2", "1", "4", "3"])]
      = scoreUser (some "9") [("A", ["4", "3", "2", "1"])] [("A", ["1", "2", "3", "4"])] :=
  scoreUser_perm_invariant (some "9")
    (List.Forall₂.cons ⟨rfl, by decide⟩ List.Forall₂.nil)
    (List.Forall₂.cons ⟨rfl, by decide⟩ List.Forall₂.nil)

/-! ## Sessions and token validation (auth.service.ts, token.service.ts,
session-cache.service.ts)

The `sessions` table is kept in `createdAt`-descending order, which is the
order the repository's `order: createdAt DESC` queries return.  bcrypt is
abstract: `verify token hash` is an arbitrary boolean comparison. -/

/-- A `Session` row (session.entity.ts); timestamps are instants in seconds. -/
structure Session where
  id : String
  userId : String
  tokenHash : String
  refreshTokenHash : String
  userAgent : String
  ipAddress : String
  createdAt : Nat
  expiresAt : Nat
deriving DecidableEq, Repr

/-- Abstract bcrypt comparison (`TokenService.verifyToken`). -/
abbrev Verify := String → String → Bool

/-- `AUTH_CONSTANTS.SESSION.RECENT_LOOKUP_LIMIT` (auth.constants.ts). -/
def RECENT_LOOKUP_LIMIT : Nat := 3

/-- `AUTH_CONSTANTS.SESSION.BULK_REFRESH_LOOKUP_LIMIT` (auth.constants.ts). -/
def BULK_REFRESH_LOOKUP_LIMIT : Nat := 100

/-- `TokenService.getTokenPrefix`: first `PREFIX_LENGTH = 16` characters. -/
def tokenPrefixOf (token : String) : String := token.take 16

/-- One character of the `/^[a-f0-9]+$/i` character class. -/
def isHexChar (c : Char) : Bool :=
  ('0' ≤ c && c ≤ '9') || ('a' ≤ c && c ≤ 'f') || ('A' ≤ c && c ≤ 'F')

/-- `TokenService.validateTokenFormat`: truthy, length `2·tokenLength`, and
matching `/^[a-f0-9]+$/i` (nonempty, all hex). -/
def validateTokenFormat (tokenLength : Nat) (token : String) : Bool :=
  token != "" && token.length == 2 * tokenLength &&
    (!token.data.isEmpty && token.data.all isHexChar)

/-- Authentication state: the `sessions` rows (most recent first) and the
Redis session cache (prefix-keyed entries; entry TTLs are not below the
horizon of the properties proved here, so entries are plain pairs). -/
structure AuthState where
  sessions : List Session
  cache : List (String × String)
deriving DecidableEq, Repr

/-- Redis GET on the session cache. -/
def cacheGet (c : List (String × String)) (k : String) : Option String :=
  c.lookup k

/-- Redis SETEX on the session cache: replace any entry for the key. -/
def cacheSet (c : List (String × String)) (k v : String) : List (String × String) :=
  (k, v) :: c.filter (fun p => p.1 ≠ k)

/-- `sessionRepository.findOne({ where: { id } })`. -/
def findOneById (db : List Session) (sid : String) : Option Session :=
  db.find? (fun s => s.id == sid)

/-- `AuthService.validateTokenFromCache` (return value; a failed hash check
additionally purges the cache entry, which does not change the result). -/
def validateTokenFromCache (verify : Verify) (now : Nat) (st : AuthState)
    (token pfx : String) : Option Session :=
  match cacheGet st.cache ("session:token:" ++ pfx) with
  | none => none
  | some sid =>
    match findOneById st.sessions sid with
    | none => none
    | some s =>
      if decide (now < s.expiresAt) && verify token s.tokenHash then some s else none

/-- The repository query of `validateTokenFromDatabase`: non-expired rows,
most recent first, limited to `RECENT_LOOKUP_LIMIT`. -/
def recentNonExpired (db : List Session) (now : Nat) : List Session :=
  (db.filter (fun s => decide (now < s.expiresAt))).take RECENT_LOOKUP_LIMIT

/-- `AuthService.validateTokenFromDatabase` (return value; a hit re-caches the
prefix, which does not change the result). -/
def validateTokenFromDatabase (verify : Verify) (now : Nat) (st : AuthState)
    (token : String) : Option Session :=
  (recentNonExpired st.sessions now).find? (fun s => verify token s.tokenHash)

/-- `AuthService.validateSession`: format gate, cache path, then bounded
database fallback. -/
def validateSession (verify : Verify) (tokenLength now : Nat) (st : AuthState)
    (token : String) : Option Session :=
  if !(validateTokenFormat tokenLength token) then none
  else
    match validateTokenFromCache verify now st token (tokenPrefixOf token) with
    | some s => some s
    | none => validateTokenFromDatabase verify now st token

/-- `AuthService.generateNewAccessToken`, state effect: overwrite `tokenHash`
on the row (TypeORM `save` updates by primary key) and cache the new access
prefix.  `newToken`/`newHash` stand for the freshly generated random pair. -/
def generateNewAccessToken (st : AuthState) (s : Session) (newToken newHash : String) :
    String × AuthState :=
  (newToken,
    { sessions := st.sessions.map
        (fun x => if x.id == s.id then { s with tokenHash := newHash } else x),
      cache := cacheSet st.cache ("session:token:" ++ tokenPrefixOf newToken) s.id })

/-- `AuthService.findSessionByRefreshTokenFromDatabase`: scan up to
`BULK_REFRESH_LOOKUP_LIMIT` non-expired rows for a truthy refresh hash that
verifies. -/
def findSessionByRefreshTokenFromDatabase (verify : Verify) (now : Nat)
    (db : List Session) (rt : String) : Option Session :=
  ((db.filter (fun s => decide (now < s.expiresAt))).take BULK_REFRESH_LOOKUP_LIMIT).find?
    (fun s => s.refreshTokenHash != "" && verify rt s.refreshTokenHash)

/-- The cache path of `AuthService.findSessionByRefreshToken`: resolve the
refresh prefix to a session id, load the row, and accept it only if
non-expired with a truthy refresh hash that verifies. -/
def findSessionByRefreshTokenViaCache (verify : Verify) (now : Nat)
    (st : AuthState) (rt : String) : Option Session :=
  match cacheGet st.cache ("session:refresh:" ++ tokenPrefixOf rt) with
  | none => none
  | some sid =>
    match findOneById st.sessions sid with
    | none => none
    | some s =>
      if decide (now < s.expiresAt) && s.refreshTokenHash != "" &&
          verify rt s.refreshTokenHash then some s
      else none

/-- `AuthService.findSessionByRefreshToken`: cache path, then database scan. -/
def findSessionByRefreshToken (verify : Verify) (now : Nat) (st : AuthState)
    (rt : String) : Option Session :=
  match findSessionByRefreshTokenViaCache verify now st rt with
  | some s => some s
  | none => findSessionByRefreshTokenFromDatabase verify now st.sessions rt

/-- `AuthService.refreshSession`: locate the session by refresh token, then
rewrite only its access hash (the refresh-frequency counter is audit-only and
never blocks). -/
def refreshSession (verify : Verify) (now : Nat) (newToken newHash : String)
    (st : AuthState) (rt : String) : Option (String × AuthState) :=
  match findSessionByRefreshToken verify now st rt with
  | none => none
  | some s => some (generateNewAccessToken st s newToken newHash)

/-- `AuthService.deleteSession`: look up the session with this id AND this
owner; delete matching rows only when found (the body never touches the
cache). -/
def deleteSession (db : List Session) (userId sessionId : String) : List Session :=
  match db.find? (fun s => s.id == sessionId && s.userId == userId) with
  | some _ => db.filter (fun s => !(s.id == sessionId && s.userId == userId))
  | none => db

/-! ### C2: validateSession completeness and its bound -/

theorem find?_eq_of_unique {α : Type} (p : α → Bool) (l : List α) (a : α)
    (ha : a ∈ l) (hpa : p a = true) (huniq : ∀ b ∈ l, p b = true → b = a) :
    l.find? p = some a := by
  induction l with
  | nil => cases ha
  | cons x xs ih =>
    by_cases hx : p x = true
    · have hxa : x = a := huniq x (List.mem_cons_self x xs) hx
      subst hxa
      exact List.find?_cons_of_pos xs hx
    · rw [List.find?_cons_of_neg xs (by simpa using hx)]
      rcases List.mem_cons.1 ha with rfl | hmem
      · exact absurd hpa hx
      · exact ih hmem (fun b hb hpb => huniq b (List.mem_cons_of_mem x hb) hpb)

/-- C2 amended: a valid-format token that verifies against a non-expired
session is returned by `validateSession` PROVIDED the session is reachable:
either the cache maps the token's prefix to the session's id (and the row is
the one stored under that id), or the cache is cold for that prefix and the
session is among the `RECENT_LOOKUP_LIMIT` most recent non-expired rows and
is the only one of those whose hash verifies the token. -/
theorem validateSession_finds (verify : Verify) (tokenLength now : Nat)
    (st : AuthState) (token : String) (s : Session)
    (hfmt : validateTokenFormat tokenLength token = true)
    (hver : verify token s.tokenHash = true)
    (hexp : now < s.expiresAt)
    (hloc :
      (cacheGet st.cache ("session:token:" ++ tokenPrefixOf token) = some s.id ∧
        findOneById st.sessions s.id = some s) ∨
      (cacheGet st.cache ("session:token:" ++ tokenPrefixOf token) = none ∧
        s ∈ recentNonExpired st.sessions now ∧
        ∀ s2 ∈ recentNonExpired st.sessions now,
          verify token s2.tokenHash = true → s2 = s)) :
    validateSession verify tokenLength now st token = some s := by
  unfold validateSession
  rw [hfmt]
  simp only [Bool.not_true, Bool.false_eq_true, if_false]
  rcases hloc with ⟨hc, hf⟩ | ⟨hc, hmem, huniq⟩
  · have hcache : validateTokenFromCache verify now st token (tokenPrefixOf token)
        = some s := by
      simp [validateTokenFromCache, hc, hf, hexp, hver]
    rw [hcache]
  · have hcache : validateTokenFromCache verify now st token (tokenPrefixOf token)
        = none := by
      simp [validateTokenFromCache, hc]
    rw [hcache]
    show validateTokenFromDatabase verify now st token = some s
    unfold validateTokenFromDatabase
    exact find?_eq_of_unique _ _ s hmem hver huniq

/-- Abstract bcrypt instantiated for concrete states: a token verifies
against a hash exactly when they are equal. -/
def eqVerify : Verify := fun t h => t == h

/-- Four non-expired sessions, most recent first; the cache is cold. -/
def cexDb : List Session :=
  [ ⟨"s1", "u1", String.mk (List.replicate 64 'a'), "", "", "", 40, 1000⟩,
    ⟨"s2", "u2", String.mk (List.replicate 64 'b'), "", "", "", 30, 1000⟩,
    ⟨"s3", "u3", String.mk (List.replicate 64 'c'), "", "", "", 20, 1000⟩,
    ⟨"s4", "u4", String.mk (List.replicate 64 'd'), "", "", "", 10, 1000⟩ ]

/-- The state holding `cexDb` with an empty cache. -/
def cexState : AuthState := ⟨cexDb, []⟩

/-- The oldest of the four sessions of `cexDb`. -/
def cexTarget : Session :=
  ⟨"s4", "u4", String.mk (List.replicate 64 'd'), "", "", "", 10, 1000⟩

/-- The (valid-format) token verifying against `cexTarget`. -/
def cexToken : String := String.mk (List.replicate 64 'd')

/-- C2 counterexample: `cexToken` has valid format, verifies against the
stored non-expired session `cexTarget`, yet `validateSession` returns none:
the cache is cold and the session is not among the 3 most recent non-expired
rows, so the bounded fallback misses it. -/
theorem validateSession_miss_counterexample :
    cexTarget ∈ cexState.sessions ∧
    validateTokenFormat 32 cexToken = true ∧
    eqVerify cexToken cexTarget.tokenHash = true ∧
    100 < cexTarget.expiresAt ∧
    validateSession eqVerify 32 100 cexState cexToken = none := by
  refine ⟨?_, ?_, ?_, ?_, ?_⟩ <;> decide

/-- A single-session state whose cache maps the token prefix to the row. -/
def c2State : AuthState :=
  ⟨[⟨"w1", "u", String.mk (List.replicate 64 'a'), "", "", "", 5, 1000⟩],
    [("session:token:" ++ String.mk (List.replicate 16 'a'), "w1")]⟩

set_option maxRecDepth 8192 in
/-- Witness for `validateSession_finds`: the cache-hit case at a concrete
state. -/
theorem validateSession_finds_witness :
    validateSession eqVerify 32 100 c2State (String.mk (List.replicate 64 'a'))
      = some ⟨"w1", "u", String.mk (List.replicate 64 'a'), "", "", "", 5, 1000⟩ :=
  validateSession_finds eqVerify 32 100 c2State (String.mk (List.replicate 64 'a'))
    ⟨"w1", "u", String.mk (List.replicate 64 'a'), "", "", "", 5, 1000⟩
    (by decide) (by decide) (by decide) (Or.inl ⟨by decide, by decide⟩)

/-! ### C7: refresh rewrites only the access hash -/

theorem forall₂_map_self {α : Type} (R : α → α → Prop) (f : α → α) (l : List α)
    (h : ∀ a ∈ l, R a (f a)) : List.Forall₂ R l (l.map f) := by
  induction l with
  | nil => exact List.Forall₂.nil
  | cons x xs ih =>
    exact List.Forall₂.cons (h x (by simp))
      (ih (fun a ha => h a (List.mem_cons_of_mem x ha)))

theorem refreshViaCache_mem {verify : Verify} {now : Nat} {st : AuthState}
    {rt : String} {s : Session}
    (h : findSessionByRefreshTokenViaCache verify now st rt = some s) :
    s ∈ st.sessions ∧ verify rt s.refreshTokenHash = true := by
  unfold findSessionByRefreshTokenViaCache at h
  split at h
  · cases h
  · split at h
    · cases h
    · split at h
      · rename_i sid hcache s2 hfind hcond
        cases h
        simp only [Bool.and_eq_true, decide_eq_true_eq] at hcond
        exact ⟨List.mem_of_find?_eq_some hfind, hcond.2⟩
      · cases h

theorem refreshFromDb_mem {verify : Verify} {now : Nat} {db : List Session}
    {rt : String} {s : Session}
    (h : findSessionByRefreshTokenFromDatabase verify now db rt = some s) :
    s ∈ db ∧ verify rt s.refreshTokenHash = true := by
  unfold findSessionByRefreshTokenFromDatabase at h
  have hmem := List.mem_of_find?_eq_some h
  have hpred := List.find?_some h
  simp only [Bool.and_eq_true] at hpred
  exact ⟨List.mem_of_mem_filter (List.mem_of_mem_take hmem), hpred.2⟩

theorem findSessionByRefreshToken_mem {verify : Verify} {now : Nat}
    {st : AuthState} {rt : String} {s : Session}
    (h : findSessionByRefreshToken verify now st rt = some s) :
    s ∈ st.sessions ∧ verify rt s.refreshTokenHash = true := by
  unfold findSessionByRefreshToken at h
  split at h
  · rename_i s2 hvc
    cases h
    exact refreshViaCache_mem hvc
  · exact refreshFromDb_mem h

/-- C7: when `refreshSession` succeeds, only the located session's access
hash is rewritten: row for row, the session id, userId, refresh token hash,
user agent, address, createdAt and expiresAt are unchanged; rows of other
sessions are untouched; the located session's row persists with the new
access hash; and the refresh token hash still verifies the same refresh
token afterwards (the refresh token is not rotated). -/
theorem refreshSession_frame (verify : Verify) (now : Nat) (nt nh : String)
    (st : AuthState) (rt tok : String) (st2 : AuthState)
    (hids : (st.sessions.map Session.id).Nodup)
    (h : refreshSession verify now nt nh st rt = some (tok, st2)) :
    ∃ s, findSessionByRefreshToken verify now st rt = some s ∧
      tok = nt ∧
      List.Forall₂ (fun old new =>
        new.id = old.id ∧ new.userId = old.userId ∧
        new.refreshTokenHash = old.refreshTokenHash ∧
        new.userAgent = old.userAgent ∧ new.ipAddress = old.ipAddress ∧
        new.createdAt = old.createdAt ∧ new.expiresAt = old.expiresAt)
        st.sessions st2.sessions ∧
      (∀ x ∈ st.sessions, x.id ≠ s.id → x ∈ st2.sessions) ∧
      { s with tokenHash := nh } ∈ st2.sessions ∧
      verify rt s.refreshTokenHash = true := by
  unfold refreshSession at h
  split at h
  · cases h
  · rename_i s hfind
    obtain ⟨hmem, hver⟩ := findSessionByRefreshToken_mem hfind
    unfold generateNewAccessToken at h
    injection h with h2
    injection h2 with htok hst
    subst htok
    subst hst
    refine ⟨s, hfind, rfl, ?_, ?_, ?_, hver⟩
    · apply forall₂_map_self
      intro x hxmem
      by_cases hx : x.id == s.id
      · have hxid : x.id = s.id := by simpa using hx
        have hxs : x = s := List.inj_on_of_nodup_map hids hxmem hmem hxid
        subst hxs
        simp [hx]
      · simp [hx]
    · intro x hx hxid
      refine List.mem_map.2 ⟨x, hx, ?_⟩
      simp [hxid]
    · refine List.mem_map.2 ⟨s, hmem, ?_⟩
      simp

/-- A one-session state with a cold cache; the refresh hash equals the
refresh token under `eqVerify`. -/
def c7State : AuthState :=
  ⟨[⟨"r1", "u", String.mk (List.replicate 64 'a'),
      String.mk (List.replicate 64 'r'), "", "", 5, 1000⟩], []⟩

/-- The state `refreshSession` produces from `c7State`. -/
def c7NewState : AuthState :=
  ⟨[⟨"r1", "u", "newhash", String.mk (List.replicate 64 'r'), "", "", 5, 1000⟩],
    [("session:token:" ++ String.mk (List.replicate 16 'n'), "r1")]⟩

set_option maxRecDepth 8192 in
/-- Witness for `refreshSession_frame` at a concrete state. -/
theorem refreshSession_frame_witness :
    ∃ s, findSessionByRefreshToken eqVerify 100 c7State
        (String.mk (List.replicate 64 'r')) = some s ∧
      String.mk (List.replicate 64 'n') = String.mk (List.replicate 64 'n') ∧
      List.Forall₂ (fun old new =>
        new.id = old.id ∧ new.userId = old.userId ∧
        new.refreshTokenHash = old.refreshTokenHash ∧
        new.userAgent = old.userAgent ∧ new.ipAddress = old.ipAddress ∧
        new.createdAt = old.createdAt ∧ new.expiresAt = old.expiresAt)
        c7State.sessions c7NewState.sessions ∧
      (∀ x ∈ c7State.sessions, x.id ≠ s.id → x ∈ c7NewState.sessions) ∧
      { s with tokenHash := "newhash" } ∈ c7NewState.sessions ∧
      eqVerify (String.mk (List.replicate 64 'r')) s.refreshTokenHash = true :=
  refreshSession_frame eqVerify 100 (String.mk (List.replicate 64 'n')) "newhash"
    c7State (String.mk (List.replicate 64 'r')) (String.mk (List.replicate 64 'n'))
    c7NewState (by decide) (by decide)

/-! ### C9: deleteSession deletes at most the owned session -/

theorem length_le_one_of_all_eq {l : List String} (c : String)
    (hall : ∀ x ∈ l, x = c) (hnd : l.Nodup) : l.length ≤ 1 := by
  match l with
  | [] => simp
  | [a] => simp
  | a :: b :: rest =>
    exfalso
    have ha := hall a (by simp)
    have hb := hall b (by simp)
    rw [List.nodup_cons] at hnd
    exact hnd.1 (by simp [ha, hb])

theorem length_le_filter_not_add_one {α : Type} (p : α → Bool) (l : List α)
    (h1 : (l.filter p).length ≤ 1) :
    l.length ≤ (l.filter (fun a => !(p a))).length + 1 := by
  induction l with
  | nil => simp
  | cons x xs ih =>
    by_cases hx : p x = true
    · rw [List.filter_cons_of_pos hx] at h1
      simp only [List.length_cons] at h1
      have hnil : xs.filter p = [] := List.length_eq_zero.1 (by omega)
      have hall : ∀ a ∈ xs, ¬ p a = true := by
        intro a ha
        exact (List.filter_eq_nil_iff.1 hnil) a ha
      have hself : xs.filter (fun a => !(p a)) = xs := by
        apply List.filter_eq_self.2
        intro a ha
        simp [hall a ha]
      rw [List.filter_cons_of_neg (by simp [hx])]
      simp [hself]
    · rw [List.filter_cons_of_neg (by simpa using hx)] at h1
      rw [List.filter_cons_of_pos (by simp [hx])]
      simp only [List.length_cons]
      have := ih h1
      omega

/-- C9: `deleteSession` removes at most the single session whose id equals
`sessionId` AND whose owner equals `userId`; rows not matching both fields
are all kept, nothing new appears, the store shrinks by at most one row, and
when no such session exists (including a session id owned by a different
user) the store is left entirely unchanged. -/
theorem deleteSession_frame (db : List Session) (uid sid : String)
    (hids : (db.map Session.id).Nodup) :
    ((¬ ∃ s ∈ db, s.id = sid ∧ s.userId = uid) → deleteSession db uid sid = db) ∧
    (∀ s ∈ db, ¬ (s.id = sid ∧ s.userId = uid) → s ∈ deleteSession db uid sid) ∧
    (∀ s ∈ deleteSession db uid sid, s ∈ db) ∧
    db.length ≤ (deleteSession db uid sid).length + 1 := by
  unfold deleteSession
  cases hfind : db.find? (fun s => s.id == sid && s.userId == uid) with
  | none =>
    exact ⟨fun _ => rfl, fun s hs _ => hs, fun s hs => hs, Nat.le_succ _⟩
  | some s0 =>
    have hpred := List.find?_some hfind
    simp only [Bool.and_eq_true, beq_iff_eq] at hpred
    have hmem0 := List.mem_of_find?_eq_some hfind
    refine ⟨?_, ?_, ?_, ?_⟩
    · intro hcon
      exact absurd ⟨s0, hmem0, hpred⟩ hcon
    · intro s hs hno
      refine List.mem_filter.2 ⟨hs, ?_⟩
      cases hb : (s.id == sid && s.userId == uid) with
      | false => simp
      | true =>
        exfalso
        simp only [Bool.and_eq_true, beq_iff_eq] at hb
        exact hno hb
    · intro s hs
      exact List.mem_of_mem_filter hs
    · apply length_le_filter_not_add_one
      have hsub : ((db.filter (fun s => s.id == sid && s.userId == uid)).map Session.id).Sublist
          (db.map Session.id) :=
        List.Sublist.map Session.id (List.filter_sublist db)
      have hnd2 := hids.sublist hsub
      have hall : ∀ x ∈ (db.filter (fun s => s.id == sid && s.userId == uid)).map Session.id,
          x = sid := by
        intro x hx
        rcases List.mem_map.1 hx with ⟨s, hs, rfl⟩
        have := List.of_mem_filter hs
        simp only [Bool.and_eq_true, beq_iff_eq] at this
        exact this.1
      have := length_le_one_of_all_eq sid hall hnd2
      simpa using this

/-- Two sessions owned by different users. -/
def c9Db : List Session :=
  [ ⟨"d1", "alice", "h1", "", "", "", 10, 1000⟩,
    ⟨"d2", "bob", "h2", "", "", "", 20, 1000⟩ ]

/-- Witness for `deleteSession_frame`: deleting "d2" on behalf of the
non-owner "alice" leaves the store unchanged. -/
theorem deleteSession_frame_witness :
    ((¬ ∃ s ∈ c9Db, s.id = "d2" ∧ s.userId = "alice") →
      deleteSession c9Db "alice" "d2" = c9Db) ∧
    (∀ s ∈ c9Db, ¬ (s.id = "d2" ∧ s.userId = "alice") →
      s ∈ deleteSession c9Db "alice" "d2") ∧
    (∀ s ∈ deleteSession c9Db "alice" "d2", s ∈ c9Db) ∧
    c9Db.length ≤ (deleteSession c9Db "alice" "d2").length + 1 :=
  deleteSession_frame c9Db "alice" "d2" (by decide)

/-! ## Auth guard IP check (auth.guard.ts) -/

/-- JS `a || b` over two possibly-absent strings (the empty string and an
absent value are both falsy). -/
def jsOrOpt (a b : Option String) : Option String :=
  match a with
  | some x => if x ≠ "" then some x else b
  | none => b

/-- Truthiness of a possibly-absent string. -/
def jsTruthy (o : Option String) : Bool :=
  o.getD "" != ""

/-- The `SESSION_IP_MISMATCH` decision of `AuthGuard.canActivate`: with IP
validation enabled and a truthy stored `session.ipAddress`, reject exactly
when the current address (`request.ip || request.connection?.remoteAddress`)
is truthy, is not the literal string "undefined", and differs from the
stored address. -/
def ipMismatchRejects (enableIpValidation : Bool) (sessionIp : String)
    (reqIp remoteAddr : Option String) : Bool :=
  enableIpValidation && sessionIp != "" &&
    (jsTruthy (jsOrOpt reqIp remoteAddr) &&
      (jsOrOpt reqIp remoteAddr).getD "" != "undefined" &&
      sessionIp != (jsOrOpt reqIp remoteAddr).getD "")

/-- C10: `SESSION_IP_MISMATCH` is raised exactly when IP validation is
enabled, the session stores a non-empty address, the request's client
address is determined (present, non-empty, and not the literal string
"undefined"), and the two addresses differ; in particular a session without
a stored address, or a request whose client address cannot be determined, is
never rejected with this error. -/
theorem ipMismatch_characterization (e : Bool) (sIp : String)
    (reqIp remoteAddr : Option String) :
    ipMismatchRejects e sIp reqIp remoteAddr = true ↔
      (e = true ∧ sIp ≠ "" ∧
        ∃ cur, jsOrOpt reqIp remoteAddr = some cur ∧ cur ≠ "" ∧
          cur ≠ "undefined" ∧ sIp ≠ cur) := by
  unfold ipMismatchRejects jsTruthy
  cases hor : jsOrOpt reqIp remoteAddr with
  | none => simp
  | some cur => simp [and_assoc]

/-! ## OTP generation (otp.service.ts) -/

/-- Decimal string of a natural number, as JS `Number.prototype.toString()`
renders integers: most-significant digit first, no leading zeros, "0" for 0. -/
def natToDecString (n : Nat) : String :=
  if n = 0 then "0"
  else String.mk ((Nat.digits 10 n).reverse.map (fun d => Char.ofNat (d + 48)))

/-- `OtpService.generateOtpCode`, numeric part:
`Math.floor(min + r * (max - min + 1))` with `min = 10^(length-1)` and
`max = 10^length - 1`; `r` models the `Math.random()` draw in `[0, 1)`. -/
def otpValue (len : Nat) (r : ℚ) : ℤ :=
  ⌊(10 : ℚ) ^ (len - 1) + r * ((10 : ℚ) ^ len - 1 - (10 : ℚ) ^ (len - 1) + 1)⌋

/-- `OtpService.generateOtpCode`: the numeric draw rendered by `.toString()`. -/
def generateOtpCode (len : Nat) (r : ℚ) : String :=
  natToDecString (otpValue len r).toNat

theorem otpValue_lower (len : Nat) (r : ℚ) (h0 : 0 ≤ r) :
    (10 : ℤ) ^ (len - 1) ≤ otpValue len r := by
  unfold otpValue
  rw [Int.le_floor]
  push_cast
  have hpow : (10 : ℚ) ^ (len - 1) ≤ (10 : ℚ) ^ len :=
    pow_le_pow_right₀ (by norm_num) (Nat.sub_le len 1)
  nlinarith

theorem otpValue_upper (len : Nat) (hlen : 1 ≤ len) (r : ℚ)
    (h0 : 0 ≤ r) (h1 : r < 1) :
    otpValue len r ≤ 10 ^ len - 1 := by
  have hlt : otpValue len r < 10 ^ len := by
    unfold otpValue
    rw [Int.floor_lt]
    push_cast
    have hspan : (0 : ℚ) < (10 : ℚ) ^ len - (10 : ℚ) ^ (len - 1) := by
      have := pow_lt_pow_right₀ (by norm_num : (1 : ℚ) < 10) (by omega : len - 1 < len)
      linarith
    nlinarith
  omega

theorem natToDecString_head?_ne_zero (n : Nat) (hn : 1 ≤ n) :
    (natToDecString n).data.head? ≠ some '0' := by
  unfold natToDecString
  rw [if_neg (by omega)]
  have hne : Nat.digits 10 n ≠ [] := Nat.digits_ne_nil_iff_ne_zero.2 (by omega)
  show ((Nat.digits 10 n).reverse.map (fun d => Char.ofNat (d + 48))).head? ≠ some '0'
  rw [List.head?_map, List.head?_reverse, List.getLast?_eq_getLast _ hne]
  have hd0 : (Nat.digits 10 n).getLast hne ≠ 0 :=
    Nat.getLast_digit_ne_zero 10 (by omega)
  have hd10 : (Nat.digits 10 n).getLast hne < 10 :=
    Nat.digits_lt_base (by norm_num) (List.getLast_mem hne)
  intro hcon
  simp only [Option.map_some', Option.some.injEq] at hcon
  set d := (Nat.digits 10 n).getLast hne with hd
  have h1d : 1 ≤ d := by omega
  interval_cases d <;> exact absurd hcon (by decide)

theorem natToDecString_length (n : Nat) (hn : 1 ≤ n) :
    (natToDecString n).length = (Nat.digits 10 n).length := by
  unfold natToDecString
  rw [if_neg (by omega)]
  simp [String.length]

theorem digits_length_of_range {len v : Nat} (hlen : 1 ≤ len)
    (hlo : 10 ^ (len - 1) ≤ v) (hhi : v < 10 ^ len) :
    (Nat.digits 10 v).length = len := by
  have hv : v ≠ 0 := by
    have : 1 ≤ 10 ^ (len - 1) := Nat.one_le_pow _ _ (by norm_num)
    omega
  rw [Nat.digits_len 10 v (by norm_num) hv]
  have hlog : Nat.log 10 v = len - 1 := by
    apply Nat.log_eq_of_pow_le_of_lt_pow hlo
    have : len - 1 + 1 = len := by omega
    rw [this]
    exact hhi
  omega

/-- C5 counterexample: no random draw in `[0, 1)` yields the 6-digit code
"012345"; the generator never produces a code with a leading zero, although
the claim asserts every 6-digit code (leading zeros preserved) is a possible
output. -/
theorem generateOtpCode_counterexample :
    ¬ ∃ r : ℚ, 0 ≤ r ∧ r < 1 ∧ generateOtpCode 6 r = "012345" := by
  rintro ⟨r, h0, h1, heq⟩
  have hlo := otpValue_lower 6 r h0
  have hn : 1 ≤ (otpValue 6 r).toNat := by
    have h100k : (10 : ℤ) ^ (6 - 1) = 100000 := by norm_num
    omega
  have hhead := natToDecString_head?_ne_zero (otpValue 6 r).toNat hn
  unfold generateOtpCode at heq
  rw [heq] at hhead
  exact hhead rfl

/-- C5 amended: the generated code is the decimal representation (no leading
zeros) of a draw from `[10^(len-1), 10^len - 1]`: the value is always in that
range, the code has exactly `len` digits, its first character is never '0',
and every value of the range is attained by some draw in `[0, 1)`. -/
theorem generateOtpCode_support (len : Nat) (hlen : 1 ≤ len) (r : ℚ)
    (h0 : 0 ≤ r) (h1 : r < 1) :
    (10 ^ (len - 1) ≤ otpValue len r ∧ otpValue len r ≤ 10 ^ len - 1) ∧
    (generateOtpCode len r).length = len ∧
    (generateOtpCode len r).data.head? ≠ some '0' ∧
    (∀ v : Nat, 10 ^ (len - 1) ≤ v → v < 10 ^ len →
      ∃ r2 : ℚ, 0 ≤ r2 ∧ r2 < 1 ∧ otpValue len r2 = v) := by
  have hlo := otpValue_lower len r h0
  have hhi := otpValue_upper len hlen r h0 h1
  have hnn : 0 ≤ otpValue len r :=
    le_trans (by positivity) hlo
  have hlo2 : 10 ^ (len - 1) ≤ (otpValue len r).toNat := by
    have hcast : ((10 ^ (len - 1) : ℕ) : ℤ) = (10 : ℤ) ^ (len - 1) := by push_cast; ring
    omega
  have hhi2 : (otpValue len r).toNat < 10 ^ len := by
    have hcast : ((10 ^ len : ℕ) : ℤ) = (10 : ℤ) ^ len := by push_cast; ring
    omega
  have hn1 : 1 ≤ (otpValue len r).toNat := by
    have : 1 ≤ 10 ^ (len - 1) := Nat.one_le_pow _ _ (by norm_num)
    omega
  refine ⟨⟨hlo, hhi⟩, ?_, ?_, ?_⟩
  · unfold generateOtpCode
    rw [natToDecString_length _ hn1]
    exact digits_length_of_range hlen hlo2 hhi2
  · exact natToDecString_head?_ne_zero _ hn1
  · intro v hv1 hv2
    have hmnv : (10 : ℚ) ^ (len - 1) ≤ (v : ℚ) := by
      exact_mod_cast hv1
    have hvlt : (v : ℚ) < (10 : ℚ) ^ len := by
      exact_mod_cast hv2
    have hspan : (0 : ℚ) < (10 : ℚ) ^ len - (10 : ℚ) ^ (len - 1) := by
      have := pow_lt_pow_right₀ (by norm_num : (1 : ℚ) < 10) (by omega : len - 1 < len)
      linarith
    refine ⟨((v : ℚ) - 10 ^ (len - 1)) / ((10 : ℚ) ^ len - 10 ^ (len - 1)),
      ?_, ?_, ?_⟩
    · apply div_nonneg <;> linarith
    · rw [div_lt_one hspan]
      linarith
    · unfold otpValue
      have hcalc : (10 : ℚ) ^ (len - 1) +
          ((v : ℚ) - 10 ^ (len - 1)) / ((10 : ℚ) ^ len - 10 ^ (len - 1)) *
            ((10 : ℚ) ^ len - 1 - (10 : ℚ) ^ (len - 1) + 1) = (v : ℚ) := by
        field_simp
        ring
      rw [hcalc, Int.floor_natCast]

/-- Witness for `generateOtpCode_support` at `len = 6`, `r = 0`. -/
theorem generateOtpCode_support_witness :
    (10 ^ (6 - 1) ≤ otpValue 6 0 ∧ otpValue 6 0 ≤ 10 ^ 6 - 1) ∧
    (generateOtpCode 6 0).length = 6 ∧
    (generateOtpCode 6 0).data.head? ≠ some '0' ∧
    (∀ v : Nat, 10 ^ (6 - 1) ≤ v → v < 10 ^ 6 →
      ∃ r2 : ℚ, 0 ≤ r2 ∧ r2 < 1 ∧ otpValue 6 r2 = v) :=
  generateOtpCode_support 6 (by norm_num) 0 (by norm_num) (by norm_num)

/-! ## OTP send with rate limiting (otp.service.ts)

The OTP-related Redis keys hold string values with an absolute expiry
instant; `redisGet` only returns live entries.  The JSON payload stored
under the OTP key is abstracted to its `code` field (the only field the
claims inspect); the cooldown keys store "1" as in the source. -/

/-- OTP Redis store: key → (value, absolute expiry instant in seconds). -/
abbrev RedisStore := List (String × String × Nat)

/-- Redis GET at instant `now`. -/
def redisGet (now : Nat) (store : RedisStore) (k : String) : Option String :=
  match store.find? (fun e => e.1 == k) with
  | some e => if now < e.2.2 then some e.2.1 else none
  | none => none

/-- Redis SETEX at instant `now`: replace the entry for the key, expiring
`ttl` seconds later. -/
def redisSetex (now : Nat) (store : RedisStore) (k : String) (ttl : Nat)
    (v : String) : RedisStore :=
  (k, v, now + ttl) :: store.filter (fun e => e.1 ≠ k)

/-- `otp:phone:{phone}`. -/
def otpKey (phone : String) : String := "otp:phone:" ++ phone

/-- `otp:send:limit:{phone}`. -/
def sendLimitKey (phone : String) : String := "otp:send:limit:" ++ phone

/-- `otp:last_request:{phone}`. -/
def lastRequestKey (phone : String) : String := "otp:last_request:" ++ phone

/-- Outcome of `OtpService.sendOtp` (HTTP 429 constants and the SMS error). -/
inductive SendOtpOutcome
  | sent (sandboxOtp : Option String)
  | exceededSendLimit
  | pleaseWaitBeforeNextRequest
  | smsError
deriving DecidableEq, Repr

/-- The OTP-related configuration (configuration.ts defaults: 120/120). -/
structure OtpConfig where
  expirySeconds : Nat
  cooldownSeconds : Nat
  sandbox : Bool
deriving DecidableEq, Repr

/-- `OtpService.sendOtp` at instant `now`: rate-limit checks, then store the
OTP, set both cooldown keys, and only then dispatch the SMS (`smsOk` tells
whether the dispatch succeeds; `code` is the freshly generated OTP).  The
unusual-phone-pattern check is audit-only and carries no state.  On an SMS
dispatch error the writes already performed are NOT rolled back. -/
def sendOtp (cfg : OtpConfig) (smsOk : Bool) (now : Nat) (phone code : String)
    (store : RedisStore) : RedisStore × SendOtpOutcome :=
  if (redisGet now store (sendLimitKey phone)).isSome then
    (store, .exceededSendLimit)
  else if (redisGet now store (lastRequestKey phone)).isSome then
    (store, .pleaseWaitBeforeNextRequest)
  else
    let s1 := redisSetex now store (otpKey phone) cfg.expirySeconds code
    let s2 := redisSetex now s1 (sendLimitKey phone) cfg.cooldownSeconds "1"
    let s3 := redisSetex now s2 (lastRequestKey phone) cfg.cooldownSeconds "1"
    if smsOk then (s3, .sent (if cfg.sandbox then some code else none))
    else (s3, .smsError)

theorem redisGet_setex_same (now now2 : Nat) (store : RedisStore) (k : String)
    (ttl : Nat) (v : String) :
    redisGet now2 (redisSetex now store k ttl v) k =
      if now2 < now + ttl then some v else none := by
  unfold redisGet redisSetex
  rw [List.find?_cons_of_pos _ (by simp)]

theorem find?_filter_of_ne {k k2 : String} (hne : k2 ≠ k)
    (store : RedisStore) :
    (store.filter (fun e => e.1 ≠ k)).find? (fun e => e.1 == k2) =
      store.find? (fun e => e.1 == k2) := by
  induction store with
  | nil => rfl
  | cons x xs ih =>
    simp only [List.filter_cons]
    by_cases hxk : x.1 = k
    · rw [if_neg (by simp [hxk]), ih, List.find?_cons]
      have hx2 : (x.1 == k2) = false := by
        subst hxk
        simp [Ne.symm hne]
      rw [hx2]
    · rw [if_pos (by simp [hxk])]
      simp only [List.find?_cons]
      cases hx2 : (x.1 == k2) with
      | true => rfl
      | false => exact ih

theorem redisGet_setex_other (now now2 : Nat) (store : RedisStore)
    {k k2 : String} (hne : k2 ≠ k) (ttl : Nat) (v : String) :
    redisGet now2 (redisSetex now store k ttl v) k2 = redisGet now2 store k2 := by
  unfold redisGet redisSetex
  rw [List.find?_cons_of_neg _ (by simpa using hne.symm), find?_filter_of_ne hne]

theorem otpKey_ne_sendLimitKey (p : String) : otpKey p ≠ sendLimitKey p := by
  intro h
  have hlen := congrArg String.length h
  simp only [otpKey, sendLimitKey, String.length_append] at hlen
  have h1 : ("otp:phone:" : String).length = 10 := rfl
  have h2 : ("otp:send:limit:" : String).length = 15 := rfl
  omega

theorem otpKey_ne_lastRequestKey (p : String) : otpKey p ≠ lastRequestKey p := by
  intro h
  have hlen := congrArg String.length h
  simp only [otpKey, lastRequestKey, String.length_append] at hlen
  have h1 : ("otp:phone:" : String).length = 10 := rfl
  have h2 : ("otp:last_request:" : String).length = 17 := rfl
  omega

theorem sendLimitKey_ne_lastRequestKey (p : String) :
    sendLimitKey p ≠ lastRequestKey p := by
  intro h
  have hlen := congrArg String.length h
  simp only [sendLimitKey, lastRequestKey, String.length_append] at hlen
  have h1 : ("otp:send:limit:" : String).length = 15 := rfl
  have h2 : ("otp:last_request:" : String).length = 17 := rfl
  omega

/-- C8: when the rate-limit keys are clear and the SMS dispatch fails,
`sendOtp` still stores the OTP and both cooldown keys (the writes precede the
dispatch and are not rolled back), the call ends in the SMS error, and a
retry for the same phone within the cooldown window fails with
EXCEEDED_SEND_LIMIT against an unchanged store. -/
theorem sendOtp_sms_failure_keeps_state (cfg : OtpConfig) (now now2 : Nat)
    (phone code code2 : String) (store : RedisStore) (smsOk2 : Bool)
    (hsl : redisGet now store (sendLimitKey phone) = none)
    (hlr : redisGet now store (lastRequestKey phone) = none)
    (hexp : 0 < cfg.expirySeconds)
    (hw1 : now ≤ now2) (hw2 : now2 < now + cfg.cooldownSeconds) :
    (sendOtp cfg false now phone code store).2 = .smsError ∧
    redisGet now ((sendOtp cfg false now phone code store).1) (otpKey phone)
      = some code ∧
    redisGet now2 ((sendOtp cfg false now phone code store).1) (sendLimitKey phone)
      = some "1" ∧
    redisGet now2 ((sendOtp cfg false now phone code store).1) (lastRequestKey phone)
      = some "1" ∧
    sendOtp cfg smsOk2 now2 phone code2 ((sendOtp cfg false now phone code store).1)
      = ((sendOtp cfg false now phone code store).1, .exceededSendLimit) := by
  have hstep : sendOtp cfg false now phone code store =
      (redisSetex now (redisSetex now (redisSetex now store (otpKey phone)
          cfg.expirySeconds code)
        (sendLimitKey phone) cfg.cooldownSeconds "1")
        (lastRequestKey phone) cfg.cooldownSeconds "1", .smsError) := by
    unfold sendOtp
    rw [hsl, hlr]
    simp
  rw [hstep]
  have hgetOtp : redisGet now (redisSetex now (redisSetex now (redisSetex now
      store (otpKey phone) cfg.expirySeconds code)
      (sendLimitKey phone) cfg.cooldownSeconds "1")
      (lastRequestKey phone) cfg.cooldownSeconds "1") (otpKey phone)
      = some code := by
    rw [redisGet_setex_other _ _ _ (otpKey_ne_lastRequestKey phone),
      redisGet_setex_other _ _ _ (otpKey_ne_sendLimitKey phone),
      redisGet_setex_same]
    rw [if_pos (by omega)]
  have hgetSl : redisGet now2 (redisSetex now (redisSetex now (redisSetex now
      store (otpKey phone) cfg.expirySeconds code)
      (sendLimitKey phone) cfg.cooldownSeconds "1")
      (lastRequestKey phone) cfg.cooldownSeconds "1") (sendLimitKey phone)
      = some "1" := by
    rw [redisGet_setex_other _ _ _ (sendLimitKey_ne_lastRequestKey phone),
      redisGet_setex_same]
    rw [if_pos (by omega)]
  have hgetLr : redisGet now2 (redisSetex now (redisSetex now (redisSetex now
      store (otpKey phone) cfg.expirySeconds code)
      (sendLimitKey phone) cfg.cooldownSeconds "1")
      (lastRequestKey phone) cfg.cooldownSeconds "1") (lastRequestKey phone)
      = some "1" := by
    rw [redisGet_setex_same]
    rw [if_pos (by omega)]
  refine ⟨rfl, hgetOtp, hgetSl, hgetLr, ?_⟩
  unfold sendOtp
  rw [hgetSl]
  simp

/-- Witness for `sendOtp_sms_failure_keeps_state` with the default 120 s
windows on an empty store. -/
theorem sendOtp_sms_failure_keeps_state_witness :
    (sendOtp ⟨120, 120, false⟩ false 0 "09123456789" "111111" []).2 = .smsError ∧
    redisGet 0 ((sendOtp ⟨120, 120, false⟩ false 0 "09123456789" "111111" []).1)
      (otpKey "09123456789") = some "111111" ∧
    redisGet 60 ((sendOtp ⟨120, 120, false⟩ false 0 "09123456789" "111111" []).1)
      (sendLimitKey "09123456789") = some "1" ∧
    redisGet 60 ((sendOtp ⟨120, 120, false⟩ false 0 "09123456789" "111111" []).1)
      (lastRequestKey "09123456789") = some "1" ∧
    sendOtp ⟨120, 120, false⟩ true 60 "09123456789" "222222"
        ((sendOtp ⟨120, 120, false⟩ false 0 "09123456789" "111111" []).1)
      = ((sendOtp ⟨120, 120, false⟩ false 0 "09123456789" "111111" []).1,
          .exceededSendLimit) :=
  sendOtp_sms_failure_keeps_state ⟨120, 120, false⟩ 0 60 "09123456789" "111111"
    "222222" [] true (by decide) (by decide) (by decide) (by decide) (by decide)

/-! ## Prediction processor (prediction.processor.ts) -/

/-- A `Prediction` row; `predict` is the stored JSON mapping, each entity
possibly wrapped in a singleton array (plain ids are singleton wrappers). -/
structure Prediction where
  id : String
  userId : String
  predict : List (String × List (List String))
deriving DecidableEq, Repr

/-- A `Result` row (the fields the claims inspect). -/
structure ResultRow where
  predictionId : String
  userId : String
  totalScore : Nat
deriving DecidableEq, Repr

/-- `flattenPredictionGroups` (prediction.helper.ts): flatten the nested
wrapper arrays of each group. -/
def flattenPredictionGroups (predict : List (String × List (List String))) :
    Groups :=
  predict.map (fun p => (p.1, p.2.flatten))

/-- Fixed lookup data of the worker: the designated team id and the cached
ground truth. -/
structure ProcEnv where
  iranTeamId : Option String
  correctGroups : Groups
deriving Repr

/-- Mutable worker state: the `predictions` and `results` tables and the
`prediction:stats:processed` counter. -/
structure ProcState where
  predictions : List Prediction
  results : List ResultRow
  statsProcessed : Nat
deriving DecidableEq, Repr

/-- `PredictionProcessor.processPredictionJob`: validate the job ids, skip
when a result row already exists, skip when the prediction row is gone,
otherwise score the flattened prediction and insert exactly one result row,
bumping the processed counter. -/
def processPredictionJob (env : ProcEnv) (jobPredictionId jobUserId : String)
    (st : ProcState) : Except String ProcState :=
  if jobPredictionId = "" then .error "Invalid predictionId"
  else if jobUserId = "" then .error "Invalid userId"
  else if (st.results.find? (fun r => r.predictionId == jobPredictionId)).isSome then
    .ok st
  else
    match st.predictions.find? (fun p => p.id == jobPredictionId) with
    | none => .ok st
    | some prediction =>
      let sr := scoreUser env.iranTeamId
        (flattenPredictionGroups prediction.predict) env.correctGroups
      .ok { st with
        results := st.results ++ [⟨prediction.id, prediction.userId, sr.score⟩],
        statsProcessed := st.statsProcessed + 1 }

/-- One broker delivery of the job: on a handler error the state is unchanged
(the message is routed to the retry/DLQ policy instead). -/
def deliverJob (env : ProcEnv) (pid uid : String) (st : ProcState) : ProcState :=
  match processPredictionJob env pid uid st with
  | .ok st2 => st2
  | .error _ => st

/-- `n` sequential deliveries of the same job. -/
def deliverJobN (env : ProcEnv) (pid uid : String) : Nat → ProcState → ProcState
  | 0, st => st
  | n + 1, st => deliverJobN env pid uid n (deliverJob env pid uid st)

/-- Number of `Result` rows stored for a given submission id. -/
def resultCountFor (st : ProcState) (pid : String) : Nat :=
  (st.results.filter (fun r => r.predictionId == pid)).length

theorem resultCount_pos_iff (st : ProcState) (pid : String) :
    (st.results.find? (fun r => r.predictionId == pid)).isSome ↔
      0 < resultCountFor st pid := by
  rw [List.find?_isSome]
  unfold resultCountFor
  constructor
  · rintro ⟨a, ha, hpa⟩
    exact List.length_pos_of_mem (List.mem_filter.2 ⟨ha, hpa⟩)
  · intro hpos
    obtain ⟨a, ha⟩ := List.exists_mem_of_length_pos hpos
    obtain ⟨hmem, hpa⟩ := List.mem_filter.1 ha
    exact ⟨a, hmem, hpa⟩

theorem processPredictionJob_noop (env : ProcEnv) (pid uid : String)
    (st : ProcState) (hpid : pid ≠ "") (huid : uid ≠ "")
    (hpos : 0 < resultCountFor st pid) :
    processPredictionJob env pid uid st = .ok st := by
  unfold processPredictionJob
  rw [if_neg hpid, if_neg huid, if_pos ((resultCount_pos_iff st pid).2 hpos)]

theorem processPredictionJob_insert (env : ProcEnv) (pid uid : String)
    (st : ProcState) (hpid : pid ≠ "") (huid : uid ≠ "")
    (h0 : resultCountFor st pid = 0)
    (hpred : (st.predictions.find? (fun p => p.id == pid)).isSome) :
    ∃ st2, processPredictionJob env pid uid st = .ok st2 ∧
      resultCountFor st2 pid = 1 := by
  obtain ⟨p, hp⟩ := Option.isSome_iff_exists.1 hpred
  have hppid : p.id = pid := by
    have := List.find?_some hp
    simpa using this
  unfold processPredictionJob
  rw [if_neg hpid, if_neg huid,
    if_neg (by rw [resultCount_pos_iff, h0]; omega), hp]
  refine ⟨_, rfl, ?_⟩
  unfold resultCountFor at h0 ⊢
  simp only [List.filter_append, List.length_append, h0]
  simp [hppid]

/-- C3: delivering a well-formed job for an existing submission any number of
times sequentially, starting with no result row, never yields more than one
result row; after the first delivery exactly one row exists, and every
further processing of the same job returns without error and without
touching the state. -/
theorem processPredictionJob_at_most_once (env : ProcEnv) (pid uid : String)
    (st : ProcState) (hpid : pid ≠ "") (huid : uid ≠ "")
    (hpred : (st.predictions.find? (fun p => p.id == pid)).isSome)
    (h0 : resultCountFor st pid = 0) :
    (∀ n, resultCountFor (deliverJobN env pid uid n st) pid ≤ 1) ∧
    (∀ n, 1 ≤ n →
      resultCountFor (deliverJobN env pid uid n st) pid = 1 ∧
      processPredictionJob env pid uid (deliverJobN env pid uid n st)
        = .ok (deliverJobN env pid uid n st)) := by
  obtain ⟨st2, hok, hcnt⟩ :=
    processPredictionJob_insert env pid uid st hpid huid h0 hpred
  have hdel : deliverJob env pid uid st = st2 := by
    unfold deliverJob
    rw [hok]
  have hstable : ∀ k s, resultCountFor s pid = 1 →
      deliverJobN env pid uid k s = s := by
    intro k
    induction k with
    | zero => intro s _; rfl
    | succ m ih =>
      intro s hs
      have hok2 : processPredictionJob env pid uid s = .ok s :=
        processPredictionJob_noop env pid uid s hpid huid (by omega)
      have hds : deliverJob env pid uid s = s := by
        unfold deliverJob
        rw [hok2]
      show deliverJobN env pid uid m (deliverJob env pid uid s) = s
      rw [hds]
      exact ih s hs
  have hkey : ∀ n, 1 ≤ n → deliverJobN env pid uid n st = st2 := by
    intro n hn
    obtain ⟨m, rfl⟩ : ∃ m, n = m + 1 := ⟨n - 1, by omega⟩
    show deliverJobN env pid uid m (deliverJob env pid uid st) = st2
    rw [hdel]
    exact hstable m st2 hcnt
  constructor
  · intro n
    cases n with
    | zero =>
      show resultCountFor st pid ≤ 1
      omega
    | succ m =>
      rw [hkey (m + 1) (by omega), hcnt]
  · intro n hn
    rw [hkey n hn]
    exact ⟨hcnt, processPredictionJob_noop env pid uid st2 hpid huid (by omega)⟩

/-- Ground truth with a single group. -/
def c3Env : ProcEnv := ⟨none, [("A", ["1"])]⟩

/-- One stored unscored prediction. -/
def c3State : ProcState := ⟨[⟨"p1", "u1", [("A", [["1"]])]⟩], [], 0⟩

/-- Witness for `processPredictionJob_at_most_once` at a concrete state. -/
theorem processPredictionJob_at_most_once_witness :
    (∀ n, resultCountFor (deliverJobN c3Env "p1" "u1" n c3State) "p1" ≤ 1) ∧
    (∀ n, 1 ≤ n →
      resultCountFor (deliverJobN c3Env "p1" "u1" n c3State) "p1" = 1 ∧
      processPredictionJob c3Env "p1" "u1" (deliverJobN c3Env "p1" "u1" n c3State)
        = .ok (deliverJobN c3Env "p1" "u1" n c3State)) :=
  processPredictionJob_at_most_once c3Env "p1" "u1" c3State (by decide) (by decide)
    (by decide) (by decide)

/-! ## Broker retry policy (rabbitmq.service.ts) -/

/-- The effect of `RabbitMQService.handleMessageRetry` on the message. -/
inductive RetryOutcome
  | republishAck (newRetryCount : Nat) (lastError : String)
  | nackToDlq
deriving DecidableEq, Repr

/-- `RabbitMQService.handleMessageRetry`: `retryCount = (header || 0) + 1`;
when `retryCount < maxRetries`, republish with `x-retry-count = retryCount`
and `x-last-error` set and ack the original; otherwise nack without requeue,
routing the message to the DLQ through the broker's DLX. -/
def handleMessageRetry (maxRetries : Nat) (retryHeader : Option Nat)
    (errMsg : String) : RetryOutcome :=
  let retryCount := retryHeader.getD 0 + 1
  if retryCount < maxRetries then .republishAck retryCount errMsg
  else .nackToDlq

/-- C4 counterexample: with the default `maxRetries = 3` and an
`x-retry-count` header of 2 — strictly below MAX_RETRIES — the claim
prescribes a republish with header 3; the code nacks the message to the DLQ
instead. -/
theorem handleMessageRetry_counterexample :
    (2 < 3) ∧
    handleMessageRetry 3 (some 2) "boom" = .nackToDlq ∧
    handleMessageRetry 3 (some 2) "boom" ≠ .republishAck 3 "boom" := by
  refine ⟨by norm_num, by decide, by decide⟩

/-- C4 amended: on handler error the message is republished with the
`x-retry-count` header incremented by one and `x-last-error` set to the error
message (the original being acked) exactly when the incremented count —
header value (default 0 when absent) plus one — is strictly less than
MAX_RETRIES; otherwise it is nacked without requeue, routing it to the
dead-letter queue. -/
theorem handleMessageRetry_spec (maxRetries : Nat) (h : Option Nat) (e : String) :
    (handleMessageRetry maxRetries h e = .republishAck (h.getD 0 + 1) e ↔
      h.getD 0 + 1 < maxRetries) ∧
    (handleMessageRetry maxRetries h e = .nackToDlq ↔
      maxRetries ≤ h.getD 0 + 1) := by
  unfold handleMessageRetry
  by_cases hc : h.getD 0 + 1 < maxRetries
  · rw [if_pos hc]
    refine ⟨⟨fun _ => hc, fun _ => rfl⟩, ⟨fun hcon => ?_, fun hcon => by omega⟩⟩
    cases hcon
  · rw [if_neg hc]
    refine ⟨⟨fun hcon => ?_, fun hcon => absurd hcon hc⟩,
      ⟨fun _ => by omega, fun _ => rfl⟩⟩
    cases hcon

end WorldCup
